import Mathlib

/-!
Shallow embedding of `camera_capture/camera.py` (repository Watch_dog).

The script drives one control loop over a video-capture device.  External
collaborators (cv2 `VideoCapture.read`, `waitKey`, `time.time`,
`datetime.now().strftime`) are modelled as an oracle `Env` of call-indexed
streams; each call the script makes consumes the next value of the
corresponding stream.  A failed `cap.read()` yields `none`: cv2 returns
`(False, None)` and the tuple assignment `ret, frame = cap.read()`
overwrites the `frame` variable, so the interpreter stores `Option` frames
and Python's `frame.copy()` on `None` (an uncaught `AttributeError`) is
the `crashed` outcome.  Loops take explicit fuel; `Outcome.noFuel` marks
fuel exhaustion and is an artifact of the embedding, not a behaviour of
the script.
-/

namespace Watchdog

/-- Decimal digit character (codepoint `48 + d`), as produced by Python
decimal formatting of a single digit. -/
def digitChar (d : Nat) : Char := Char.ofNat (48 + d)

/-- Big-endian decimal digits of a natural number (empty for 0). -/
def natDigitsBE (n : Nat) : List Nat := (Nat.digits 10 n).reverse

/-- Decimal rendering of a natural number. -/
def decRepr (n : Nat) : String :=
  if n = 0 then String.mk [digitChar 0] else String.mk ((natDigitsBE n).map digitChar)

/-- Python `f"{idx:03d}"`: decimal, left-padded with zeros to at least
three characters. -/
def pad3 (n : Nat) : String :=
  String.mk (List.replicate (3 - (decRepr n).length) (digitChar 0) ++ (decRepr n).data)

/-- `build_filename` from camera.py, with the strftime timestamp string
`ts` passed in (it is drawn from the oracle's `stamp` stream at the call
site): `str(folder / name)` joins with `/`, and the name is the pfx,
an underscore, the zero-padded index, an underscore, the timestamp and
the `.jpg` suffix. -/
def build_filename (folder pfx : String) (idx : Nat) (ts : String) : String :=
  folder ++ "/" ++ pfx ++ "_" ++ pad3 idx ++ "_" ++ ts ++ ".jpg"

/-- Read a decimal numeral (most significant digit first) from a list of
characters, accumulator-style; leading zeros do not change the value. -/
def parseDigits (acc : Nat) : List Char → Nat
  | [] => acc
  | c :: cs => parseDigits (acc * 10 + (c.toNat - 48)) cs

/-- Recover the image-index field of a filename produced by
`build_filename`: drop the `folder ++ "/" ++ pfx ++ "_"` header, then
parse the maximal run of digit characters (the field is terminated by
the non-digit `_` before the timestamp). -/
def idxField (folder pfx : String) (s : String) : Nat :=
  parseDigits 0 ((s.data.drop (folder.length + 1 + pfx.length + 1)).takeWhile fun c => c.isDigit)

/-- `RunConfig`: the argparse result.  `delay ≥ 0` and the integer fields
are modelled as `Nat` (the spec's RunConfig invariant). -/
structure Config where
  output : String
  count : Nat
  delay : Nat
  camera : Nat
  width : Nat
  height : Nat
  pfx : String
  manual : Bool
  skipWarmup : Bool

/-- Oracle for the external collaborators: the `k`-th call of each kind
returns the `k`-th stream element.  `read k = none` is a failed frame
read. -/
structure Env where
  read : Nat → Option Nat
  key : Nat → Nat
  time : Nat → Nat
  stamp : Nat → String

/-- Mutable run state: current image index, the Python `frame` variable
(`none` = `None`), per-collaborator call counters, the written files
(index, filename) in order, the number of executed 5-frame discard
blocks, the number of skipped final captures, and the number of executed
finalization blocks. -/
structure St where
  imgIndex : Nat
  frame : Option Nat
  reads : Nat
  keys : Nat
  times : Nat
  stamps : Nat
  writes : List (Nat × String)
  discards : Nat
  skips : Nat
  cleanups : Nat

/-- How the run left the main loop. -/
inductive Outcome where
  | completed
  | escQuit
  | interrupted
  | crashed
  | noFuel
deriving DecidableEq

/-- Result of the automatic-mode countdown inner loop. -/
inductive CdResult where
  | finished (st : St)
  | quit (st : St)
  | crash (st : St)
  | noFuel (st : St)

/-- The state carried inside a countdown result. -/
def CdResult.state : CdResult → St
  | .finished st => st
  | .quit st => st
  | .crash st => st
  | .noFuel st => st

/-- The countdown inner loop (camera.py lines 80-105).  One tick:
`elapsed = int(time.time() - start_time)`, `remaining = delay - elapsed`,
`display = frame.copy()` (an uncaught AttributeError when `frame` is
`None`), render, break if `remaining <= 0`, poll `waitKey(100) & 0xFF`
for `q` (113, raising KeyboardInterrupt), else `ret, frame = cap.read()`
(which overwrites `frame` even on failure, where the script only warns
and sleeps 50 ms). -/
def countdown (cfg : Config) (env : Env) (tstart : Nat) : Nat → St → CdResult
  | 0, st => .noFuel st
  | fuel + 1, st =>
    match st.frame with
    | none => .crash { st with times := st.times + 1 }
    | some _ =>
      if (cfg.delay : Int) - ((env.time st.times : Int) - (tstart : Int)) ≤ 0 then
        .finished { st with times := st.times + 1 }
      else if env.key st.keys % 256 = 113 then
        .quit { st with times := st.times + 1, keys := st.keys + 1 }
      else
        countdown cfg env tstart fuel
          { st with times := st.times + 1, keys := st.keys + 1,
                    reads := st.reads + 1, frame := env.read st.reads }

/-- `filename = build_filename(...)`, `cv2.imwrite(filename, frame)`,
log line, `img_index += 1` (camera.py lines 70-73 and 112-115): record
the (index, filename) pair, then post-increment the index. -/
def writeCapture (cfg : Config) (env : Env) (st : St) : St :=
  { st with stamps := st.stamps + 1,
            writes := st.writes ++
              [(st.imgIndex, build_filename cfg.output cfg.pfx st.imgIndex (env.stamp st.stamps))],
            imgIndex := st.imgIndex + 1 }

/-- The `for _ in range(5): cap.read()` discard block (camera.py lines
74-76 and 117-119): consumes five reads; the results are not assigned to
`frame`. -/
def discard5 (st : St) : St :=
  { st with reads := st.reads + 5, discards := st.discards + 1 }

/-- The final-capture step after the countdown (camera.py lines
107-115): `ret, frame = cap.read()`; on failure only a warning is
printed (no index advance, counted in `skips`), on success write and
advance. -/
def finalCapture (cfg : Config) (env : Env) (st : St) : St :=
  match env.read st.reads with
  | none => { st with reads := st.reads + 1, frame := none, skips := st.skips + 1 }
  | some f => writeCapture cfg env { st with reads := st.reads + 1, frame := some f }

/-- One outer-loop iteration either continues the loop or halts the run. -/
inductive Flow where
  | cont (st : St)
  | halt (o : Outcome) (st : St)

/-- The automatic-mode body of one outer iteration (camera.py lines
80-119): record `start_time = time.time()`, run the countdown, translate
its abrupt exits (`raise KeyboardInterrupt` for `q`, AttributeError for
the `None` frame), then the final capture and the unconditional discard
block. -/
def autoStep (cfg : Config) (env : Env) (fi : Nat) (st : St) : Flow :=
  match countdown cfg env (env.time st.times) fi { st with times := st.times + 1 } with
  | .quit st2 => .halt .interrupted st2
  | .crash st2 => .halt .crashed st2
  | .noFuel st2 => .halt .noFuel st2
  | .finished st2 => .cont (discard5 (finalCapture cfg env st2))

/-- The manual-mode body of one outer iteration (camera.py lines 61-77):
`key = cv2.waitKey(1) & 0xFF`; ESC (27) breaks out of the loop, SPACE
(32) writes, advances and discards, anything else just continues. -/
def manualStep (cfg : Config) (env : Env) (st : St) : Flow :=
  if env.key st.keys % 256 = 27 then
    .halt .escQuit { st with keys := st.keys + 1 }
  else if env.key st.keys % 256 = 32 then
    .cont (discard5 (writeCapture cfg env { st with keys := st.keys + 1 }))
  else
    .cont { st with keys := st.keys + 1 }

/-- The main loop `while img_index <= args.count` (camera.py lines
54-119).  Each iteration reads one frame (`ret, frame = cap.read()`,
overwriting `frame`); a failed top read warns, sleeps 200 ms and
`continue`s; then the mode-specific body runs. -/
def runLoop (cfg : Config) (env : Env) (fi : Nat) : Nat → St → Outcome × St
  | 0, st => (.noFuel, st)
  | fo + 1, st =>
    if cfg.count < st.imgIndex then (.completed, st)
    else
      match env.read st.reads with
      | none => runLoop cfg env fi fo { st with reads := st.reads + 1, frame := none }
      | some f =>
        match
          if cfg.manual then
            manualStep cfg env { st with reads := st.reads + 1, frame := some f }
          else
            autoStep cfg env fi { st with reads := st.reads + 1, frame := some f }
        with
        | .cont st2 => runLoop cfg env fi fo st2
        | .halt o st2 => (o, st2)

/-- Initial state of `main` after the device opens. -/
def initSt : St :=
  { imgIndex := 1, frame := none, reads := 0, keys := 0, times := 0,
    stamps := 0, writes := [], discards := 0, skips := 0, cleanups := 0 }

/-- Warmup (camera.py lines 47-49): five fire-and-forget reads unless
skipped. -/
def warmup (cfg : Config) (st : St) : St :=
  if cfg.skipWarmup then st else { st with reads := st.reads + 5 }

/-- The `finally` block (camera.py lines 123-126): release the device,
destroy all windows, print the completion line. -/
def finalize (st : St) : St := { st with cleanups := st.cleanups + 1 }

/-- `main` from warmup to the `finally` block.  The `try` / `except
KeyboardInterrupt` / `finally` around the loop is embedded by reifying
the abrupt exits into `Outcome` (`interrupted` is the caught
KeyboardInterrupt, `crashed` the uncaught AttributeError) and
post-composing the finalization, which therefore runs on every path out
of the loop. -/
def runMain (cfg : Config) (env : Env) (fo fi : Nat) : Outcome × St :=
  ((runLoop cfg env fi fo (warmup cfg initSt)).1,
   finalize (runLoop cfg env fi fo (warmup cfg initSt)).2)

/-- `Path.mkdir(parents=True, exist_ok=ok)` raises iff the OS reports a
failure other than existence, or the directory already exists and
`exist_ok` is false. -/
def mkdirRaises (dirExists othErr existOk : Bool) : Bool :=
  othErr || (dirExists && !existOk)

/-- `ensure_dir` (camera.py lines 23-28): `mkdir(parents=True,
exist_ok=True)`; on exception print a diagnostic and `sys.exit(1)`
(returned as `some 1`). -/
def ensure_dir (dirExists othErr : Bool) : Option Nat :=
  if mkdirRaises dirExists othErr true then some 1 else none

/-- Observable outcome of the whole process: exit code, whether a
failure diagnostic was printed before the loop, and the run result when
the loop was reached. -/
structure ProgOut where
  exit : Nat
  diag : Bool
  ran : Option (Outcome × St)

/-- The whole process (camera.py `main`): `ensure_dir`, device open
(print a diagnostic and `sys.exit(1)` if `not cap.isOpened()`), then the
run.  A `crashed` run re-raises the uncaught exception after `finally`,
which makes the Python interpreter exit with code 1; every other loop
outcome falls off the end of `main` with exit code 0. -/
def program (dirExists othErr camOpened : Bool) (cfg : Config) (env : Env)
    (fo fi : Nat) : ProgOut :=
  match ensure_dir dirExists othErr with
  | some c => { exit := c, diag := true, ran := none }
  | none =>
    if camOpened = false then { exit := 1, diag := true, ran := none }
    else
      { exit := match (runMain cfg env fo fi).1 with | .crashed => 1 | _ => 0,
        diag := false,
        ran := some (runMain cfg env fo fi) }

/-- The loop-invariant-relevant projection of a state: image index,
writes, discard blocks, skips, finalizations.  The countdown inner loop
touches none of these. -/
def core (st : St) : Nat × List (Nat × String) × Nat × Nat × Nat :=
  (st.imgIndex, st.writes, st.discards, st.skips, st.cleanups)

/-- Main-loop invariant: the 1-based index stays in `[1, count+1]`, the
recorded writes carry exactly the indices `1 .. imgIndex - 1` in order,
and every recorded filename was built by `build_filename` from its own
index and some `datetime.now` stamp. -/
def StInv (cfg : Config) (env : Env) (st : St) : Prop :=
  1 ≤ st.imgIndex ∧ st.imgIndex ≤ cfg.count + 1 ∧
  st.writes.map Prod.fst = List.range' 1 (st.imgIndex - 1) ∧
  ∀ p ∈ st.writes, ∃ j, p.2 = build_filename cfg.output cfg.pfx p.1 (env.stamp j)

/-- Discard-block accounting: in manual mode one discard block per
written file (and no skips at all); in automatic mode one discard block
per written file plus one per skipped final capture. -/
def DInv (cfg : Config) (st : St) : Prop :=
  (cfg.manual = true → st.discards = st.writes.length ∧ st.skips = 0) ∧
  (cfg.manual = false → st.discards = st.writes.length + st.skips)

/-! ### Concrete configurations and environments used as witnesses and
counterexamples. -/

/-- Automatic mode, two images, zero delay, warmup skipped. -/
def cfgAuto : Config :=
  { output := "out", count := 2, delay := 0, camera := 0, width := 640,
    height := 480, pfx := "image", manual := false, skipWarmup := true }

/-- Every read succeeds, no key is ever pressed, the clock advances one
second per call. -/
def envGood : Env :=
  { read := fun k => some k, key := fun _ => 0, time := fun k => k,
    stamp := fun _ => "20260101_120000" }

/-- Automatic mode, one image, two-second delay. -/
def cfgCrash : Config :=
  { output := "out", count := 1, delay := 2, camera := 0, width := 640,
    height := 480, pfx := "image", manual := false, skipWarmup := true }

/-- The second read (the first countdown preview refresh) fails; the
clock is frozen so the countdown keeps ticking. -/
def envDrop : Env :=
  { read := fun k => if k = 1 then none else some k, key := fun _ => 0,
    time := fun _ => 0, stamp := fun _ => "T" }

/-- Automatic mode, one image, zero delay. -/
def cfgSkip : Config :=
  { output := "out", count := 1, delay := 0, camera := 0, width := 640,
    height := 480, pfx := "image", manual := false, skipWarmup := true }

/-- The second read — which with zero delay is the final-capture read of
the first outer iteration — fails; every other read succeeds. -/
def envSkip : Env :=
  { read := fun k => if k = 1 then none else some k, key := fun _ => 0,
    time := fun k => k, stamp := fun _ => "T" }

/-- Manual mode, five images requested. -/
def cfgManual : Config :=
  { output := "out", count := 5, delay := 3, camera := 0, width := 640,
    height := 480, pfx := "image", manual := true, skipWarmup := true }

/-- First key poll returns SPACE, every later one ESC. -/
def envSpaceEsc : Env :=
  { read := fun k => some k, key := fun k => if k = 0 then 32 else 27,
    time := fun k => k, stamp := fun _ => "T" }

/-- Every key poll returns ESC. -/
def envEsc : Env :=
  { read := fun k => some k, key := fun _ => 27, time := fun k => k,
    stamp := fun _ => "T" }

/-- Every read fails. -/
def envNoRead : Env :=
  { read := fun _ => none, key := fun _ => 0, time := fun _ => 0,
    stamp := fun _ => "T" }

/-- A state holding a live frame, as at entry to the automatic body. -/
def stW : St := { initSt with frame := some 0 }

/-- `stW` after a one-tick countdown (one `time.time()` call for the
start stamp and one for the tick). -/
def stW1 : St := { initSt with frame := some 0, times := 2 }

/-! ### Filename lemmas: the zero-padded decimal index field determines
the index, so distinct indices give distinct filenames. -/

theorem digitChar_toNat {d : Nat} (h : d < 10) : (digitChar d).toNat = 48 + d := by
  interval_cases d <;> rfl

theorem digitChar_isDigit {d : Nat} (h : d < 10) : (digitChar d).isDigit = true := by
  interval_cases d <;> rfl

theorem parseDigits_cons (acc : Nat) (c : Char) (cs : List Char) :
    parseDigits acc (c :: cs) = parseDigits (acc * 10 + (c.toNat - 48)) cs := rfl

theorem parseDigits_zeros (k : Nat) (l : List Char) :
    parseDigits 0 (List.replicate k (digitChar 0) ++ l) = parseDigits 0 l := by
  induction k with
  | zero => rfl
  | succ k ih =>
    rw [List.replicate_succ, List.cons_append, parseDigits_cons,
      digitChar_toNat (by norm_num)]
    simpa using ih

theorem parseDigits_map : ∀ (l : List Nat), (∀ d ∈ l, d < 10) → ∀ acc : Nat,
    parseDigits acc (l.map digitChar) = acc * 10 ^ l.length + Nat.ofDigits 10 l.reverse := by
  intro l
  induction l with
  | nil =>
    intro _ acc
    rw [List.map_nil, show parseDigits acc [] = acc from rfl, List.reverse_nil,
      Nat.ofDigits_nil, List.length_nil, pow_zero, mul_one, Nat.add_zero]
  | cons d t ih =>
    intro hl acc
    have hd : d < 10 := hl d (by simp)
    have ht : ∀ x ∈ t, x < 10 := fun x hx => hl x (by simp [hx])
    rw [List.map_cons, parseDigits_cons, ih ht, digitChar_toNat hd,
      Nat.add_sub_cancel_left, List.reverse_cons, Nat.ofDigits_append,
      Nat.ofDigits_singleton]
    simp only [List.length_cons, List.length_reverse]
    ring

theorem parseDigits_decRepr (n : Nat) : parseDigits 0 (decRepr n).data = n := by
  by_cases h : n = 0
  · subst h; rfl
  · have hdig : ∀ d ∈ natDigitsBE n, d < 10 := by
      intro d hd
      rw [natDigitsBE, List.mem_reverse] at hd
      exact Nat.digits_lt_base (by norm_num) hd
    rw [decRepr, if_neg h]
    show parseDigits 0 ((natDigitsBE n).map digitChar) = n
    rw [parseDigits_map _ hdig 0]
    simp [natDigitsBE, Nat.ofDigits_digits]

theorem parseDigits_pad3 (n : Nat) : parseDigits 0 (pad3 n).data = n := by
  show parseDigits 0 (List.replicate _ (digitChar 0) ++ (decRepr n).data) = n
  rw [parseDigits_zeros, parseDigits_decRepr]

theorem pad3_isDigit (n : Nat) : ∀ c ∈ (pad3 n).data, c.isDigit = true := by
  intro c hc
  have hc' : c ∈ List.replicate (3 - (decRepr n).length) (digitChar 0) ++ (decRepr n).data := hc
  rcases List.mem_append.mp hc' with h | h
  · rw [List.eq_of_mem_replicate h]; exact digitChar_isDigit (by norm_num)
  · by_cases hn : n = 0
    · rw [hn] at h
      have h0 : c ∈ [digitChar 0] := h
      rw [List.mem_singleton.mp h0]; exact digitChar_isDigit (by norm_num)
    · rw [decRepr, if_neg hn] at h
      have h2 : c ∈ (natDigitsBE n).map digitChar := h
      rcases List.mem_map.mp h2 with ⟨d, hd, rfl⟩
      refine digitChar_isDigit ?_
      rw [natDigitsBE, List.mem_reverse] at hd
      exact Nat.digits_lt_base (by norm_num) hd

theorem takeWhile_all_append {α : Type} (p : α → Bool) (l1 : List α) (x : α)
    (l2 : List α) (h1 : ∀ c ∈ l1, p c = true) (hx : p x = false) :
    ((l1 ++ x :: l2).takeWhile p) = l1 := by
  induction l1 with
  | nil => simp [List.takeWhile_cons, hx]
  | cons a t ih =>
    have ha := h1 a (by simp)
    simp only [List.cons_append, List.takeWhile_cons, ha, if_true]
    rw [ih fun c hc => h1 c (by simp [hc])]

theorem idxField_build (folder pfx : String) (idx : Nat) (ts : String) :
    idxField folder pfx (build_filename folder pfx idx ts) = idx := by
  have hdata : (build_filename folder pfx idx ts).data =
      (folder.data ++ '/' :: pfx.data ++ ['_']) ++
        ((pad3 idx).data ++ '_' :: (ts.data ++ ['.', 'j', 'p', 'g'])) := by
    have h1 : "/".data = ['/'] := rfl
    have h2 : "_".data = ['_'] := rfl
    have h3 : ".jpg".data = ['.', 'j', 'p', 'g'] := rfl
    simp only [build_filename, String.data_append, h1, h2, h3, List.append_assoc,
      List.cons_append, List.singleton_append, List.nil_append]
  have hlen : folder.length + 1 + pfx.length + 1 =
      (folder.data ++ '/' :: pfx.data ++ ['_']).length := by
    simp only [List.length_append, List.length_cons, List.length_singleton,
      List.length_nil, String.length]
    omega
  rw [idxField, hdata, hlen, List.drop_left,
    takeWhile_all_append _ _ _ _ (pad3_isDigit idx) (by rfl), parseDigits_pad3]

theorem build_filename_inj_idx {folder pfx : String} {i j : Nat} {ts ts' : String}
    (h : build_filename folder pfx i ts = build_filename folder pfx j ts') : i = j := by
  have := congrArg (idxField folder pfx) h
  rwa [idxField_build, idxField_build] at this

/-! ### Interpreter lemmas. -/

theorem core_eq {st st' : St} (h : core st = core st') :
    st.imgIndex = st'.imgIndex ∧ st.writes = st'.writes ∧
    st.discards = st'.discards ∧ st.skips = st'.skips ∧
    st.cleanups = st'.cleanups := by
  simpa [core, Prod.ext_iff] using h

/-- The countdown inner loop only reads frames, polls keys and consumes
clock ticks: it never writes, discards, skips or finalizes, and never
moves the image index. -/
theorem countdown_core (cfg : Config) (env : Env) (tstart : Nat) : ∀ fuel st,
    core ((countdown cfg env tstart fuel st).state) = core st := by
  intro fuel
  induction fuel with
  | zero => intro st; rfl
  | succ n ih =>
    intro st
    simp only [countdown]
    cases hf : st.frame with
    | none => rfl
    | some f =>
      by_cases h1 : (cfg.delay : Int) - ((env.time st.times : Int) - (tstart : Int)) ≤ 0
      · rw [if_pos h1]; rfl
      · rw [if_neg h1]
        by_cases h2 : env.key st.keys % 256 = 113
        · rw [if_pos h2]; rfl
        · rw [if_neg h2]; exact ih _

/-- Shape of an automatic-mode iteration body: either the countdown
finished and the body continues with final capture plus discard, or the
body halts; in both cases the countdown preserved `core`. -/
theorem autoStep_cases (cfg : Config) (env : Env) (fi : Nat) (st : St) :
    (∃ st2, autoStep cfg env fi st = .cont (discard5 (finalCapture cfg env st2)) ∧
      core st2 = core st) ∨
    (∃ o st2, autoStep cfg env fi st = .halt o st2 ∧ core st2 = core st ∧
      o ≠ .escQuit) := by
  have hcore := countdown_core cfg env (env.time st.times) fi { st with times := st.times + 1 }
  simp only [autoStep]
  rcases hcd : countdown cfg env (env.time st.times) fi { st with times := st.times + 1 } with
    st2 | st2 | st2 | st2 <;> rw [hcd] at hcore <;> simp only [CdResult.state] at hcore
  · exact Or.inl ⟨st2, rfl, hcore⟩
  · exact Or.inr ⟨.interrupted, st2, rfl, hcore, by simp⟩
  · exact Or.inr ⟨.crashed, st2, rfl, hcore, by simp⟩
  · exact Or.inr ⟨.noFuel, st2, rfl, hcore, by simp⟩

/-- Generic preservation along the main loop of any property that
depends only on `core` and survives a write-plus-discard (under the loop
guard) and, in automatic mode, a skip-plus-discard. -/
theorem runLoop_pres (cfg : Config) (env : Env) (fi : Nat) (P : St → Prop)
    (hcore : ∀ st st', core st = core st' → P st → P st')
    (hw : ∀ st, st.imgIndex ≤ cfg.count → P st → P (discard5 (writeCapture cfg env st)))
    (hs : cfg.manual = false → ∀ st, P st → P (discard5 { st with skips := st.skips + 1 })) :
    ∀ fo st, P st → P (runLoop cfg env fi fo st).2 := by
  intro fo
  induction fo with
  | zero => intro st h; exact h
  | succ n ih =>
    intro st h
    simp only [runLoop]
    by_cases hc : cfg.count < st.imgIndex
    · rw [if_pos hc]; exact h
    · rw [if_neg hc]
      have hle : st.imgIndex ≤ cfg.count := Nat.le_of_not_lt hc
      cases hr : env.read st.reads with
      | none => exact ih _ (hcore st _ rfl h)
      | some f =>
        cases hm : cfg.manual with
        | true =>
          simp only [if_pos rfl, manualStep]
          by_cases hk1 : env.key st.keys % 256 = 27
          · rw [if_pos hk1]; exact hcore st _ rfl h
          · rw [if_neg hk1]
            by_cases hk2 : env.key st.keys % 256 = 32
            · rw [if_pos hk2]
              exact ih _ (hw _ hle (hcore st _ rfl h))
            · rw [if_neg hk2]
              exact ih _ (hcore st _ rfl h)
        | false =>
          simp only [Bool.false_eq_true, if_false]
          have hP1 : P { st with reads := st.reads + 1, frame := some f } :=
            hcore st _ rfl h
          rcases autoStep_cases cfg env fi { st with reads := st.reads + 1, frame := some f }
            with ⟨st2, hA, hco⟩ | ⟨o, st2, hA, hco, _⟩
          · rw [hA]
            have hP2 : P st2 := hcore _ _ hco.symm hP1
            have hi2 : st2.imgIndex = st.imgIndex := (core_eq hco).1
            cases hr2 : env.read st2.reads with
            | none =>
              refine ih _ (hcore _ _ ?_ (hs hm st2 hP2))
              simp only [finalCapture, hr2, discard5, core]
            | some f2 =>
              have hP3 : P { st2 with reads := st2.reads + 1, frame := some f2 } :=
                hcore st2 _ rfl hP2
              have hle3 : ({ st2 with reads := st2.reads + 1, frame := some f2 } : St).imgIndex
                  ≤ cfg.count := by simpa [hi2] using hle
              have := hw _ hle3 hP3
              refine ih _ ?_
              simpa only [finalCapture, hr2] using this
          · rw [hA]
            exact hcore _ _ hco.symm hP1

theorem StInv_core (cfg : Config) (env : Env) :
    ∀ st st', core st = core st' → StInv cfg env st → StInv cfg env st' := by
  intro st st' hco h
  obtain ⟨h1, h2, _, _, _⟩ := core_eq hco
  unfold StInv at h ⊢
  rw [← h1, ← h2]
  exact h

theorem StInv_write (cfg : Config) (env : Env) :
    ∀ st, st.imgIndex ≤ cfg.count → StInv cfg env st →
      StInv cfg env (discard5 (writeCapture cfg env st)) := by
  intro st hle h
  obtain ⟨h1, h2, h3, h4⟩ := h
  refine ⟨?_, ?_, ?_, ?_⟩
  · simp only [discard5, writeCapture]
    omega
  · simp only [discard5, writeCapture]
    omega
  · simp only [discard5, writeCapture, List.map_append, List.map_cons, List.map_nil]
    rw [h3]
    have he : st.imgIndex + 1 - 1 = (st.imgIndex - 1) + 1 := by omega
    rw [he, List.range'_1_concat]
    have he2 : 1 + (st.imgIndex - 1) = st.imgIndex := by omega
    rw [he2]
  · intro p hp
    simp only [discard5, writeCapture] at hp
    rcases List.mem_append.mp hp with hmem | hmem
    · exact h4 p hmem
    · rw [List.mem_singleton.mp hmem]
      exact ⟨st.stamps, rfl⟩

theorem StInv_skip (cfg : Config) (env : Env) :
    cfg.manual = false → ∀ st, StInv cfg env st →
      StInv cfg env (discard5 { st with skips := st.skips + 1 }) := by
  intro _ st h
  obtain ⟨h1, h2, h3, h4⟩ := h
  exact ⟨h1, h2, h3, h4⟩

/-- The main-loop invariant is preserved by the whole loop. -/
theorem runLoop_inv (cfg : Config) (env : Env) (fi fo : Nat) (st : St)
    (h : StInv cfg env st) : StInv cfg env (runLoop cfg env fi fo st).2 :=
  runLoop_pres cfg env fi (StInv cfg env) (StInv_core cfg env) (StInv_write cfg env)
    (StInv_skip cfg env) fo st h

theorem DInv_core (cfg : Config) :
    ∀ st st', core st = core st' → DInv cfg st → DInv cfg st' := by
  intro st st' hco h
  obtain ⟨_, h2, h3, h4, _⟩ := core_eq hco
  unfold DInv at h ⊢
  rw [← h2, ← h3, ← h4]
  exact h

theorem DInv_write (cfg : Config) (env : Env) :
    ∀ st, st.imgIndex ≤ cfg.count → DInv cfg st →
      DInv cfg (discard5 (writeCapture cfg env st)) := by
  intro st _ h
  constructor
  · intro hm
    obtain ⟨hd, hsk⟩ := h.1 hm
    constructor
    · simp only [discard5, writeCapture, List.length_append, List.length_singleton]
      omega
    · simpa [discard5, writeCapture] using hsk
  · intro hm
    have hd := h.2 hm
    simp only [discard5, writeCapture, List.length_append, List.length_singleton]
    omega

theorem DInv_skip (cfg : Config) :
    cfg.manual = false → ∀ st, DInv cfg st →
      DInv cfg (discard5 { st with skips := st.skips + 1 }) := by
  intro hm st h
  constructor
  · intro hm'
    rw [hm'] at hm
    cases hm
  · intro _
    have hd := h.2 hm
    simp only [discard5]
    omega

/-- Discard-block accounting is preserved by the whole loop. -/
theorem runLoop_dinv (cfg : Config) (env : Env) (fi fo : Nat) (st : St)
    (h : DInv cfg st) : DInv cfg (runLoop cfg env fi fo st).2 :=
  runLoop_pres cfg env fi (DInv cfg) (DInv_core cfg) (DInv_write cfg env)
    (DInv_skip cfg) fo st h

/-- The loop body never runs the finalization block. -/
theorem runLoop_cleanups (cfg : Config) (env : Env) (fi fo : Nat) (st : St) :
    (runLoop cfg env fi fo st).2.cleanups = st.cleanups :=
  runLoop_pres cfg env fi (fun s => s.cleanups = st.cleanups)
    (fun a b hco h => by
      show b.cleanups = st.cleanups
      rw [← (core_eq hco).2.2.2.2]; exact h)
    (fun a _ h => by simpa [discard5, writeCapture] using h)
    (fun _ a h => by simpa [discard5] using h) fo st rfl

theorem StInv_writes_length {cfg : Config} {env : Env} {st : St}
    (h : StInv cfg env st) : st.writes.length = st.imgIndex - 1 := by
  have hlen := congrArg List.length h.2.2.1
  simpa using hlen

theorem StInv_init (cfg : Config) (env : Env) : StInv cfg env (warmup cfg initSt) := by
  by_cases h : cfg.skipWarmup <;> simp [warmup, h, StInv, initSt]

theorem DInv_init (cfg : Config) : DInv cfg (warmup cfg initSt) := by
  by_cases h : cfg.skipWarmup <;> simp [warmup, h, DInv, initSt]

theorem warmup_cleanups (cfg : Config) : (warmup cfg initSt).cleanups = 0 := by
  by_cases h : cfg.skipWarmup <;> simp [warmup, h, initSt]

/-! ### One-step unfolding equations for the main loop. -/

theorem runLoop_succ_done (cfg : Config) (env : Env) (fi n : Nat) (st : St)
    (hc : cfg.count < st.imgIndex) :
    runLoop cfg env fi (n + 1) st = (.completed, st) := by
  simp only [runLoop]
  rw [if_pos hc]

theorem runLoop_succ_readfail (cfg : Config) (env : Env) (fi n : Nat) (st : St)
    (hc : ¬cfg.count < st.imgIndex) (hr : env.read st.reads = none) :
    runLoop cfg env fi (n + 1) st =
      runLoop cfg env fi n { st with reads := st.reads + 1, frame := none } := by
  simp only [runLoop]
  rw [if_neg hc, hr]

theorem runLoop_succ_manual (cfg : Config) (env : Env) (fi n : Nat) (st : St) (f : Nat)
    (hc : ¬cfg.count < st.imgIndex) (hr : env.read st.reads = some f)
    (hm : cfg.manual = true) :
    runLoop cfg env fi (n + 1) st =
      match manualStep cfg env { st with reads := st.reads + 1, frame := some f } with
      | .cont st2 => runLoop cfg env fi n st2
      | .halt o st2 => (o, st2) := by
  simp only [runLoop]
  rw [if_neg hc, hr, hm]
  rfl

theorem runLoop_succ_auto (cfg : Config) (env : Env) (fi n : Nat) (st : St) (f : Nat)
    (hc : ¬cfg.count < st.imgIndex) (hr : env.read st.reads = some f)
    (hm : cfg.manual = false) :
    runLoop cfg env fi (n + 1) st =
      match autoStep cfg env fi { st with reads := st.reads + 1, frame := some f } with
      | .cont st2 => runLoop cfg env fi n st2
      | .halt o st2 => (o, st2) := by
  simp only [runLoop]
  rw [if_neg hc, hr, hm]
  rfl

/-! ### Key-counter and countdown behaviour lemmas. -/

theorem finalCapture_keys (cfg : Config) (env : Env) (st : St) :
    (finalCapture cfg env st).keys = st.keys := by
  unfold finalCapture
  cases hr : env.read st.reads <;> simp [writeCapture]

/-- With zero delay, the first countdown tick already has
`remaining ≤ 0` (the clock is monotone), so the inner loop breaks before
ever reaching the key poll. -/
theorem countdown_delay0 (cfg : Config) (env : Env) (tstart : Nat) (m : Nat) (st : St)
    (hd : cfg.delay = 0) (hf : st.frame.isSome = true)
    (hts : tstart ≤ env.time st.times) :
    countdown cfg env tstart (m + 1) st = .finished { st with times := st.times + 1 } := by
  obtain ⟨f, hf'⟩ := Option.isSome_iff_exists.mp hf
  simp only [countdown]
  rw [hf']
  rw [if_pos (by omega)]

theorem autoStep_delay0 (cfg : Config) (env : Env) (fi : Nat) (st : St) (f : Nat)
    (hd : cfg.delay = 0) (hf : st.frame = some f)
    (ht : env.time st.times ≤ env.time (st.times + 1)) :
    autoStep cfg env fi st = .halt .noFuel { st with times := st.times + 1 } ∨
    autoStep cfg env fi st =
      .cont (discard5 (finalCapture cfg env { st with times := st.times + 2 })) := by
  cases fi with
  | zero => exact Or.inl rfl
  | succ m =>
    refine Or.inr ?_
    unfold autoStep
    rw [countdown_delay0 cfg env (env.time st.times) m { st with times := st.times + 1 } hd
      (by rw [show ({ st with times := st.times + 1 } : St).frame = st.frame from rfl, hf]; rfl)
      ht]

/-- In automatic mode with zero delay and a monotone clock, the key poll
is never reached: the key counter never moves and the run can never be
interrupted. -/
theorem runLoop_keys0 (cfg : Config) (env : Env) (fi : Nat)
    (hm : cfg.manual = false) (hd : cfg.delay = 0)
    (ht : ∀ k, env.time k ≤ env.time (k + 1)) :
    ∀ fo st o st', runLoop cfg env fi fo st = (o, st') →
      st'.keys = st.keys ∧ o ≠ .interrupted := by
  intro fo
  induction fo with
  | zero =>
    intro st o st' heq
    have heq2 : ((Outcome.noFuel, st) : Outcome × St) = (o, st') := heq
    injection heq2 with h1 h2
    subst h1; subst h2
    exact ⟨rfl, by decide⟩
  | succ n ih =>
    intro st o st' heq
    by_cases hc : cfg.count < st.imgIndex
    · rw [runLoop_succ_done cfg env fi n st hc] at heq
      injection heq with h1 h2
      subst h1; subst h2
      exact ⟨rfl, by decide⟩
    · cases hr : env.read st.reads with
      | none =>
        rw [runLoop_succ_readfail cfg env fi n st hc hr] at heq
        exact ih { st with reads := st.reads + 1, frame := none } o st' heq
      | some f =>
        rw [runLoop_succ_auto cfg env fi n st f hc hr hm] at heq
        rcases autoStep_delay0 cfg env fi { st with reads := st.reads + 1, frame := some f } f
            hd rfl (ht st.times) with hA | hA
        · rw [hA] at heq
          have heq2 : ((Outcome.noFuel,
              ({ st with reads := st.reads + 1, frame := some f, times := st.times + 1 } : St))
              : Outcome × St) = (o, st') := heq
          injection heq2 with h1 h2
          subst h1; subst h2
          exact ⟨rfl, by decide⟩
        · rw [hA] at heq
          have heq2 : runLoop cfg env fi n
              (discard5 (finalCapture cfg env
                { st with reads := st.reads + 1, frame := some f, times := st.times + 2 }))
              = (o, st') := heq
          obtain ⟨hk, hni⟩ := ih _ o st' heq2
          refine ⟨?_, hni⟩
          rw [hk]
          show (finalCapture cfg env _).keys = st.keys
          rw [finalCapture_keys]

/-- `manualStep` on an ESC poll. -/
theorem manualStep_esc (cfg : Config) (env : Env) (st : St)
    (hk : env.key st.keys % 256 = 27) :
    manualStep cfg env st = .halt .escQuit { st with keys := st.keys + 1 } := by
  unfold manualStep
  rw [if_pos hk]

/-- `manualStep` on a SPACE poll. -/
theorem manualStep_space (cfg : Config) (env : Env) (st : St)
    (hk1 : env.key st.keys % 256 ≠ 27) (hk2 : env.key st.keys % 256 = 32) :
    manualStep cfg env st =
      .cont (discard5 (writeCapture cfg env { st with keys := st.keys + 1 })) := by
  unfold manualStep
  rw [if_neg hk1, if_pos hk2]

/-- `manualStep` on any other poll result. -/
theorem manualStep_idle (cfg : Config) (env : Env) (st : St)
    (hk1 : env.key st.keys % 256 ≠ 27) (hk2 : env.key st.keys % 256 ≠ 32) :
    manualStep cfg env st = .cont { st with keys := st.keys + 1 } := by
  unfold manualStep
  rw [if_neg hk1, if_neg hk2]

/-- `finalCapture` when the final read fails: warn and skip, no index
advance, no write. -/
theorem finalCapture_none (cfg : Config) (env : Env) (st : St)
    (hr : env.read st.reads = none) :
    finalCapture cfg env st =
      { st with reads := st.reads + 1, frame := none, skips := st.skips + 1 } := by
  unfold finalCapture
  rw [hr]

/-- `finalCapture` when the final read succeeds. -/
theorem finalCapture_some (cfg : Config) (env : Env) (st : St) (f : Nat)
    (hr : env.read st.reads = some f) :
    finalCapture cfg env st =
      writeCapture cfg env { st with reads := st.reads + 1, frame := some f } := by
  unfold finalCapture
  rw [hr]

/-- If every read succeeds, the quit key is never pressed and the clock
strictly advances, a countdown with fuel at least `delay + 1` reaches
`remaining <= 0` and finishes. -/
theorem countdown_finishes (cfg : Config) (env : Env) (tstart : Nat)
    (hr : ∀ k, (env.read k).isSome = true) (hk : ∀ k, env.key k % 256 ≠ 113)
    (ht : ∀ k, env.time k < env.time (k + 1)) :
    ∀ fuel st, st.frame.isSome = true → 1 ≤ fuel →
      tstart + cfg.delay + 1 ≤ env.time st.times + fuel →
      ∃ st', countdown cfg env tstart fuel st = .finished st' := by
  intro fuel
  induction fuel with
  | zero =>
    intro st _ h1 _
    exact absurd h1 (by decide)
  | succ m ih =>
    intro st hf _ hb
    obtain ⟨f, hf'⟩ := Option.isSome_iff_exists.mp hf
    simp only [countdown]
    rw [hf']
    by_cases hrem : (cfg.delay : Int) - ((env.time st.times : Int) - (tstart : Int)) ≤ 0
    · rw [if_pos hrem]
      exact ⟨_, rfl⟩
    · rw [if_neg hrem, if_neg (hk st.keys)]
      have htn : env.time st.times < tstart + cfg.delay := by omega
      have hm1 : 1 ≤ m := by omega
      have hstep := ht st.times
      refine ih _ (hr st.reads) hm1 ?_
      show tstart + cfg.delay + 1 ≤ env.time (st.times + 1) + m
      omega

/-- With enough inner fuel (and cooperative reads, keys and clock) an
automatic iteration always reaches the final-capture step. -/
theorem autoStep_finishes (cfg : Config) (env : Env) (fi : Nat) (st : St)
    (hr : ∀ k, (env.read k).isSome = true) (hk : ∀ k, env.key k % 256 ≠ 113)
    (ht : ∀ k, env.time k < env.time (k + 1))
    (hf : st.frame.isSome = true) (hfi : cfg.delay + 1 ≤ fi) :
    ∃ st2, autoStep cfg env fi st = .cont (discard5 (finalCapture cfg env st2)) ∧
      core st2 = core st := by
  have hstep := ht st.times
  obtain ⟨st2, hcd⟩ := countdown_finishes cfg env (env.time st.times) hr hk ht fi
    { st with times := st.times + 1 } hf (by omega)
    (by show env.time st.times + cfg.delay + 1 ≤ env.time (st.times + 1) + fi; omega)
  refine ⟨st2, ?_, ?_⟩
  · unfold autoStep
    rw [hcd]
  · have h3 := countdown_core cfg env (env.time st.times) fi { st with times := st.times + 1 }
    rw [hcd] at h3
    exact h3

/-- In automatic mode, when reads always succeed, `q` is never pressed
and the clock strictly advances, the loop runs to completion, ending at
`imgIndex = count + 1`. -/
theorem runLoop_auto_completes (cfg : Config) (env : Env)
    (hm : cfg.manual = false) (hr : ∀ k, (env.read k).isSome = true)
    (hk : ∀ k, env.key k % 256 ≠ 113) (ht : ∀ k, env.time k < env.time (k + 1))
    (fi : Nat) (hfi : cfg.delay + 1 ≤ fi) :
    ∀ fo st, st.imgIndex ≤ cfg.count + 1 → cfg.count + 2 ≤ fo + st.imgIndex →
      (runLoop cfg env fi fo st).1 = .completed ∧
      (runLoop cfg env fi fo st).2.imgIndex = cfg.count + 1 := by
  intro fo
  induction fo with
  | zero =>
    intro st h1 h2
    exact absurd h2 (by omega)
  | succ n ih =>
    intro st h1 h2
    by_cases hc : cfg.count < st.imgIndex
    · rw [runLoop_succ_done cfg env fi n st hc]
      refine ⟨rfl, ?_⟩
      show st.imgIndex = cfg.count + 1
      omega
    · have hle : st.imgIndex ≤ cfg.count := Nat.le_of_not_lt hc
      obtain ⟨f, hrf⟩ := Option.isSome_iff_exists.mp (hr st.reads)
      rw [runLoop_succ_auto cfg env fi n st f hc hrf hm]
      obtain ⟨st2, hA, hco⟩ := autoStep_finishes cfg env fi
        { st with reads := st.reads + 1, frame := some f } hr hk ht rfl hfi
      rw [hA]
      have hi2 : st2.imgIndex = st.imgIndex := by
        have h4 := (core_eq hco).1
        simpa [core] using h4
      obtain ⟨f2, hrf2⟩ := Option.isSome_iff_exists.mp (hr st2.reads)
      have hX : (discard5 (finalCapture cfg env st2)).imgIndex = st.imgIndex + 1 := by
        rw [finalCapture_some cfg env st2 f2 hrf2]
        simp [discard5, writeCapture, hi2]
      exact ih (discard5 (finalCapture cfg env st2)) (by omega) (by omega)

/-- If the loop halts with `escQuit`, ESC was polled during an iteration
whose guard `img_index <= count` held, so fewer than `count` files had
been written. -/
theorem runLoop_escQuit (cfg : Config) (env : Env) (fi : Nat) :
    ∀ fo st, StInv cfg env st → ∀ o st', runLoop cfg env fi fo st = (o, st') →
      o = .escQuit → st'.writes.length < cfg.count := by
  intro fo
  induction fo with
  | zero =>
    intro st _ o st' heq ho
    have heq2 : ((Outcome.noFuel, st) : Outcome × St) = (o, st') := heq
    injection heq2 with h1 h2
    subst h1
    exact absurd ho (by decide)
  | succ n ih =>
    intro st hInv o st' heq ho
    by_cases hc : cfg.count < st.imgIndex
    · rw [runLoop_succ_done cfg env fi n st hc] at heq
      injection heq with h1 h2
      subst h1
      exact absurd ho (by decide)
    · have hle : st.imgIndex ≤ cfg.count := Nat.le_of_not_lt hc
      cases hr : env.read st.reads with
      | none =>
        rw [runLoop_succ_readfail cfg env fi n st hc hr] at heq
        exact ih { st with reads := st.reads + 1, frame := none }
          (StInv_core cfg env st _ rfl hInv) o st' heq ho
      | some f =>
        have hInvA : StInv cfg env { st with reads := st.reads + 1, frame := some f } :=
          StInv_core cfg env st _ rfl hInv
        by_cases hm : cfg.manual = true
        · rw [runLoop_succ_manual cfg env fi n st f hc hr hm] at heq
          by_cases hk1 : env.key st.keys % 256 = 27
          · rw [manualStep_esc cfg env { st with reads := st.reads + 1, frame := some f } hk1]
              at heq
            have heq2 : ((Outcome.escQuit,
                ({ st with reads := st.reads + 1, frame := some f, keys := st.keys + 1 } : St))
                : Outcome × St) = (o, st') := heq
            injection heq2 with h1 h2
            subst h2
            show st.writes.length < cfg.count
            have hlen := StInv_writes_length hInv
            have h1i := hInv.1
            omega
          · by_cases hk2 : env.key st.keys % 256 = 32
            · rw [manualStep_space cfg env { st with reads := st.reads + 1, frame := some f }
                hk1 hk2] at heq
              exact ih (discard5 (writeCapture cfg env
                  { st with reads := st.reads + 1, frame := some f, keys := st.keys + 1 }))
                (StInv_write cfg env _ hle (StInv_core cfg env st _ rfl hInv)) o st' heq ho
            · rw [manualStep_idle cfg env { st with reads := st.reads + 1, frame := some f }
                hk1 hk2] at heq
              exact ih { st with reads := st.reads + 1, frame := some f, keys := st.keys + 1 }
                (StInv_core cfg env st _ rfl hInv) o st' heq ho
        · have hm' : cfg.manual = false := by
            cases hmm : cfg.manual
            · rfl
            · exact absurd hmm hm
          rw [runLoop_succ_auto cfg env fi n st f hc hr hm'] at heq
          rcases autoStep_cases cfg env fi { st with reads := st.reads + 1, frame := some f }
            with ⟨st2, hA, hco⟩ | ⟨o2, st2, hA, hco, hno⟩
          · rw [hA] at heq
            have hInv2 : StInv cfg env st2 := StInv_core cfg env _ st2 hco.symm hInvA
            have hi2 : st2.imgIndex = st.imgIndex := by
              have h4 := (core_eq hco).1
              simpa [core] using h4
            cases hr2 : env.read st2.reads with
            | none =>
              rw [finalCapture_none cfg env st2 hr2] at heq
              refine ih _ ?_ o st' heq ho
              exact StInv_skip cfg env hm' { st2 with reads := st2.reads + 1, frame := none }
                (StInv_core cfg env st2 _ rfl hInv2)
            | some f2 =>
              rw [finalCapture_some cfg env st2 f2 hr2] at heq
              refine ih _ ?_ o st' heq ho
              refine StInv_write cfg env _ ?_ (StInv_core cfg env st2 _ rfl hInv2)
              show st2.imgIndex ≤ cfg.count
              omega
          · rw [hA] at heq
            injection heq with h1 h2
            subst h1
            exact absurd ho hno

/-! ### Facts lifted to `runMain`. -/

theorem runMain_inv (cfg : Config) (env : Env) (fo fi : Nat) :
    StInv cfg env (runMain cfg env fo fi).2 := by
  have h := runLoop_inv cfg env fi fo (warmup cfg initSt) (StInv_init cfg env)
  exact ⟨h.1, h.2.1, h.2.2.1, h.2.2.2⟩

theorem runMain_dinv (cfg : Config) (env : Env) (fo fi : Nat) :
    DInv cfg (runMain cfg env fo fi).2 := by
  have h := runLoop_dinv cfg env fi fo (warmup cfg initSt) (DInv_init cfg)
  exact ⟨h.1, h.2⟩

theorem runMain_cleanups (cfg : Config) (env : Env) (fo fi : Nat) :
    (runMain cfg env fo fi).2.cleanups = 1 := by
  show (runLoop cfg env fi fo (warmup cfg initSt)).2.cleanups + 1 = 1
  rw [runLoop_cleanups, warmup_cleanups]

/-! ### The claims. -/

/-- C1: for every RunConfig with `count = N ≥ 1`, an automatic-mode run
in which every frame read succeeds, the quit key is never pressed and
the clock strictly advances (so every countdown ends), terminates
normally — with enough fuel the loop outcome is `completed` — and writes
exactly `N` files, whose recorded indices are `1 .. N` in order and
whose filenames are
`output ++ "/" ++ pfx ++ "_" ++ pad3 i ++ "_" ++ ts ++ ".jpg"` with `ts`
one of the `datetime.now` stamps (the documented
`<output_dir>/<prefix>_<3-digit zero-padded index>_<YYYYMMDD_HHMMSS>.jpg`
pattern). -/
theorem spec_c1 (cfg : Config) (env : Env) (fo fi : Nat)
    (hm : cfg.manual = false) (hN : 1 ≤ cfg.count)
    (hr : ∀ k, (env.read k).isSome = true)
    (hk : ∀ k, env.key k % 256 ≠ 113)
    (ht : ∀ k, env.time k < env.time (k + 1))
    (hfo : cfg.count + 1 ≤ fo) (hfi : cfg.delay + 1 ≤ fi) :
    (runMain cfg env fo fi).1 = .completed ∧
    (runMain cfg env fo fi).2.writes.length = cfg.count ∧
    (runMain cfg env fo fi).2.writes.map Prod.fst = List.range' 1 cfg.count ∧
    ∀ p ∈ (runMain cfg env fo fi).2.writes,
      ∃ j, p.2 = build_filename cfg.output cfg.pfx p.1 (env.stamp j) := by
  have hw : (warmup cfg initSt).imgIndex = 1 := by
    by_cases h : cfg.skipWarmup <;> simp [warmup, h, initSt]
  have hcomp := runLoop_auto_completes cfg env hm hr hk ht fi hfi fo (warmup cfg initSt)
    (by rw [hw]; omega) (by rw [hw]; omega)
  have hinv := runLoop_inv cfg env fi fo (warmup cfg initSt) (StInv_init cfg env)
  refine ⟨hcomp.1, ?_, ?_, ?_⟩
  · show (runLoop cfg env fi fo (warmup cfg initSt)).2.writes.length = cfg.count
    have hlen := StInv_writes_length hinv
    rw [hlen, hcomp.2]
    omega
  · show (runLoop cfg env fi fo (warmup cfg initSt)).2.writes.map Prod.fst =
      List.range' 1 cfg.count
    rw [hinv.2.2.1, hcomp.2, Nat.add_sub_cancel]
  · intro p hp
    exact hinv.2.2.2 p hp

theorem spec_c1_witness :
    (runMain cfgAuto envGood 3 2).1 = .completed ∧
    (runMain cfgAuto envGood 3 2).2.writes.length = cfgAuto.count ∧
    (runMain cfgAuto envGood 3 2).2.writes.map Prod.fst = List.range' 1 cfgAuto.count ∧
    ∀ p ∈ (runMain cfgAuto envGood 3 2).2.writes,
      ∃ j, p.2 = build_filename cfgAuto.output cfgAuto.pfx p.1 (envGood.stamp j) :=
  spec_c1 cfgAuto envGood 3 2 rfl (by decide) (fun _ => rfl)
    (fun k => by show ¬(0 % 256 = 113); decide)
    (fun k => Nat.lt_succ_self k) (by decide) (by decide)

/-- C2 (code bug): the spec says a failed preview read during the
countdown is non-fatal — warning, short pause, the stale frame is reused
for display.  In the code `ret, frame = cap.read()` overwrites `frame`
with `None` on failure, so the next tick's `frame.copy()` raises an
uncaught AttributeError and the run aborts.  Concretely: automatic mode,
count 1, delay 2, frozen clock, the first preview read (`read` call 1)
fails — the run ends `crashed`, nothing is written, and only the
`finally` cleanup runs. -/
theorem spec_c2 :
    (runMain cfgCrash envDrop 2 3).1 = .crashed ∧
    (runMain cfgCrash envDrop 2 3).2.writes = [] ∧
    (runMain cfgCrash envDrop 2 3).2.cleanups = 1 :=
  ⟨rfl, rfl, rfl⟩

/-- C3 counterexample: automatic mode, count 1, delay 0; the final
capture read of the first iteration fails.  The run has exactly one
successful capture, yet two 5-frame discard blocks ran — one of them
right after the skipped (failed) capture, contradicting "no such discard
happens after a failed or skipped capture". -/
theorem spec_c3_cex :
    (runMain cfgSkip envSkip 3 2).1 = .completed ∧
    (runMain cfgSkip envSkip 3 2).2.writes.length = 1 ∧
    (runMain cfgSkip envSkip 3 2).2.skips = 1 ∧
    (runMain cfgSkip envSkip 3 2).2.discards = 2 :=
  ⟨rfl, rfl, rfl, rfl⟩

/-- C3 (amended): in manual mode a 5-frame discard block runs exactly
once per successful capture (and skips never happen); in automatic mode
a discard block runs once per successful capture AND once per skipped
final capture — the discard loop sits after the if/else and runs
unconditionally at the end of every automatic iteration that reached the
capture step. -/
theorem spec_c3 (cfg : Config) (env : Env) (fo fi : Nat) :
    (cfg.manual = true →
      (runMain cfg env fo fi).2.discards = (runMain cfg env fo fi).2.writes.length ∧
      (runMain cfg env fo fi).2.skips = 0) ∧
    (cfg.manual = false →
      (runMain cfg env fo fi).2.discards =
        (runMain cfg env fo fi).2.writes.length + (runMain cfg env fo fi).2.skips) :=
  runMain_dinv cfg env fo fi

theorem spec_c3_witness :
    (runMain cfgSkip envSkip 3 2).2.discards =
      (runMain cfgSkip envSkip 3 2).2.writes.length + (runMain cfgSkip envSkip 3 2).2.skips :=
  (spec_c3 cfgSkip envSkip 3 2).2 rfl

/-- C4: when the automatic final-capture read fails, the index does not
advance and nothing is written (only the skip counter moves); an
iteration whose countdown finished always continues the outer loop
(`Flow.cont`) — so the same index is retried with a fresh countdown —
and in every run the number of files written never exceeds `count`. -/
theorem spec_c4 :
    (∀ (cfg : Config) (env : Env) (st : St), env.read st.reads = none →
      (finalCapture cfg env st).imgIndex = st.imgIndex ∧
      (finalCapture cfg env st).writes = st.writes ∧
      (finalCapture cfg env st).skips = st.skips + 1) ∧
    (∀ (cfg : Config) (env : Env) (fi : Nat) (st st1 : St),
      countdown cfg env (env.time st.times) fi { st with times := st.times + 1 } =
        .finished st1 →
      autoStep cfg env fi st = .cont (discard5 (finalCapture cfg env st1))) ∧
    (∀ (cfg : Config) (env : Env) (fo fi : Nat),
      (runMain cfg env fo fi).2.writes.length ≤ cfg.count) := by
  refine ⟨?_, ?_, ?_⟩
  · intro cfg env st hr
    rw [finalCapture_none cfg env st hr]
    exact ⟨rfl, rfl, rfl⟩
  · intro cfg env fi st st1 hcd
    unfold autoStep
    rw [hcd]
  · intro cfg env fo fi
    have hinv := runLoop_inv cfg env fi fo (warmup cfg initSt) (StInv_init cfg env)
    have hlen := StInv_writes_length hinv
    have h2 := hinv.2.1
    show (runLoop cfg env fi fo (warmup cfg initSt)).2.writes.length ≤ cfg.count
    omega

theorem spec_c4_witness :
    ((finalCapture cfgAuto envNoRead initSt).imgIndex = initSt.imgIndex ∧
     (finalCapture cfgAuto envNoRead initSt).writes = initSt.writes ∧
     (finalCapture cfgAuto envNoRead initSt).skips = initSt.skips + 1) ∧
    autoStep cfgAuto envGood 1 stW = .cont (discard5 (finalCapture cfgAuto envGood stW1)) ∧
    (runMain cfgAuto envGood 3 2).2.writes.length ≤ cfgAuto.count :=
  ⟨spec_c4.1 cfgAuto envNoRead initSt rfl,
   spec_c4.2.1 cfgAuto envGood 1 stW stW1 rfl,
   spec_c4.2.2 cfgAuto envGood 3 2⟩

/-- C5: for every run that reaches the loop, the finalization block
(release the device, close the windows, completion log) executes exactly
once, on every termination path — normal completion, manual-mode ESC,
automatic-mode `q` during the countdown (reified KeyboardInterrupt
caught by the `except`), the crash path, and even fuel exhaustion: the
loop body itself never finalizes, and the `finally` block runs once on
the way out. -/
theorem spec_c5 (cfg : Config) (env : Env) (fo fi : Nat) :
    (runMain cfg env fo fi).2.cleanups = 1 :=
  runMain_cleanups cfg env fo fi

/-- C6 (code bug on the "exactly when" direction): `ensure_dir` does not
fail on an already-existing directory (`exist_ok=True`); a directory
error or an unopenable device exits 1 with a printed diagnostic; normal
completion and user cancellation (manual ESC) exit 0.  BUT a failed
preview read during an automatic countdown crashes the run with an
uncaught AttributeError, and the process then exits non-zero although
neither directory creation nor device open failed and no pre-loop
diagnostic was printed — contradicting "non-zero ... exactly when". -/
theorem spec_c6 :
    ensure_dir true false = none ∧
    (program false true true cfgAuto envGood 3 2).exit = 1 ∧
    (program false true true cfgAuto envGood 3 2).diag = true ∧
    (program false false false cfgAuto envGood 3 2).exit = 1 ∧
    (program false false false cfgAuto envGood 3 2).diag = true ∧
    (program false false true cfgAuto envGood 3 2).exit = 0 ∧
    (program false false true cfgManual envEsc 2 1).exit = 0 ∧
    (program false false true cfgCrash envDrop 2 3).exit = 1 ∧
    (program false false true cfgCrash envDrop 2 3).diag = false :=
  ⟨rfl, rfl, rfl, rfl, rfl, rfl, rfl, rfl, rfl⟩

/-- C7: within a single run the recorded write indices are strictly
increasing (never reused, even across skipped captures), and any two
distinct files written have distinct filenames: the filename's
zero-padded decimal index field recovers the index
(`idxField`/`build_filename_inj_idx`), so distinct indices force
distinct name strings. -/
theorem spec_c7 (cfg : Config) (env : Env) (fo fi : Nat) :
    List.Pairwise (fun p q : Nat × String => p.1 < q.1) (runMain cfg env fo fi).2.writes ∧
    List.Pairwise (fun p q : Nat × String => p.2 ≠ q.2) (runMain cfg env fo fi).2.writes := by
  obtain ⟨_, _, hmap, hfn⟩ := runMain_inv cfg env fo fi
  have hlt : List.Pairwise (fun a b : Nat => a < b)
      ((runMain cfg env fo fi).2.writes.map Prod.fst) := by
    rw [hmap]
    exact List.pairwise_lt_range' 1 ((runMain cfg env fo fi).2.imgIndex - 1)
  have hlt2 : List.Pairwise (fun p q : Nat × String => p.1 < q.1)
      (runMain cfg env fo fi).2.writes := List.pairwise_map.mp hlt
  refine ⟨hlt2, hlt2.imp_of_mem ?_⟩
  intro a b ha hb hab heq
  obtain ⟨j1, hj1⟩ := hfn a ha
  obtain ⟨j2, hj2⟩ := hfn b hb
  have hinj : a.1 = b.1 := build_filename_inj_idx (by rw [← hj1, ← hj2, heq])
  omega

/-- C8: in manual mode, a run that ends by the cancel key has written
fewer than `count` files; and concretely, pressing the capture key once
and then the cancel key yields exactly one written file with the index
ending at 2 and a clean `escQuit` exit. -/
theorem spec_c8 :
    (∀ (cfg : Config) (env : Env) (fo fi : Nat), cfg.manual = true →
      (runMain cfg env fo fi).1 = .escQuit →
      (runMain cfg env fo fi).2.writes.length < cfg.count) ∧
    ((runMain cfgManual envSpaceEsc 10 5).1 = .escQuit ∧
     (runMain cfgManual envSpaceEsc 10 5).2.writes.length = 1 ∧
     (runMain cfgManual envSpaceEsc 10 5).2.imgIndex = 2) := by
  constructor
  · intro cfg env fo fi _ ho
    exact runLoop_escQuit cfg env fi fo (warmup cfg initSt) (StInv_init cfg env)
      (runLoop cfg env fi fo (warmup cfg initSt)).1
      (runLoop cfg env fi fo (warmup cfg initSt)).2 rfl ho
  · exact ⟨rfl, rfl, rfl⟩

theorem spec_c8_witness :
    (runMain cfgManual envSpaceEsc 10 5).2.writes.length < cfgManual.count :=
  spec_c8.1 cfgManual envSpaceEsc 10 5 rfl rfl

/-- C9: in automatic mode with `delay = 0` and a monotone clock, every
countdown already has `remaining ≤ 0` at its first tick, which is
checked before the key poll — so `waitKey` is never called during the
whole run (the key counter stays 0) and the run can never end
`interrupted`: cancellation is observable only when some tick has
`remaining > 0`. -/
theorem spec_c9 (cfg : Config) (env : Env) (fo fi : Nat)
    (hm : cfg.manual = false) (hd : cfg.delay = 0)
    (ht : ∀ k, env.time k ≤ env.time (k + 1)) :
    (runMain cfg env fo fi).2.keys = 0 ∧ (runMain cfg env fo fi).1 ≠ .interrupted := by
  have h := runLoop_keys0 cfg env fi hm hd ht fo (warmup cfg initSt)
    (runLoop cfg env fi fo (warmup cfg initSt)).1
    (runLoop cfg env fi fo (warmup cfg initSt)).2 rfl
  constructor
  · show (runLoop cfg env fi fo (warmup cfg initSt)).2.keys = 0
    rw [h.1]
    by_cases hs : cfg.skipWarmup <;> simp [warmup, hs, initSt]
  · exact h.2

theorem spec_c9_witness :
    (runMain cfgAuto envGood 3 2).2.keys = 0 ∧
    (runMain cfgAuto envGood 3 2).1 ≠ .interrupted :=
  spec_c9 cfgAuto envGood 3 2 rfl rfl (fun k => Nat.le_succ (envGood.time k))

/-- C10: the main-loop invariant — `1 ≤ img_index ≤ count + 1`, the
number of files written so far equals `img_index - 1`, and the write
indices are exactly `1 .. img_index - 1` in order (so the index moves
only by +1 and only together with a write) — is preserved by every run
of the loop from any state satisfying it, and holds of the final state
of every run. -/
theorem spec_c10 :
    (∀ (cfg : Config) (env : Env) (fi fo : Nat) (st : St), StInv cfg env st →
      StInv cfg env (runLoop cfg env fi fo st).2) ∧
    (∀ (cfg : Config) (env : Env) (fo fi : Nat),
      1 ≤ (runMain cfg env fo fi).2.imgIndex ∧
      (runMain cfg env fo fi).2.imgIndex ≤ cfg.count + 1 ∧
      (runMain cfg env fo fi).2.writes.length = (runMain cfg env fo fi).2.imgIndex - 1 ∧
      (runMain cfg env fo fi).2.writes.map Prod.fst =
        List.range' 1 ((runMain cfg env fo fi).2.imgIndex - 1)) := by
  constructor
  · intro cfg env fi fo st h
    exact runLoop_inv cfg env fi fo st h
  · intro cfg env fo fi
    have h := runMain_inv cfg env fo fi
    exact ⟨h.1, h.2.1, StInv_writes_length h, h.2.2.1⟩

theorem spec_c10_witness :
    StInv cfgAuto envGood (runLoop cfgAuto envGood 2 1 initSt).2 :=
  spec_c10.1 cfgAuto envGood 2 1 initSt
    ⟨Nat.le_refl 1, by decide, rfl, fun p hp => absurd hp (List.not_mem_nil p)⟩

end Watchdog
